import Mathlib

/-!
Formal model of the expense-tracker page (`app/page.tsx`): the record store,
its derived views (month grouping, monthly total, weekly pace, top
categories) and the create / delete / load / persist operations, together
with proofs of the specification's properties.

Modelling conventions:
* JS numbers carrying money amounts are modelled as exact rationals (`ℚ`);
  every amount handled by the program is a short decimal, which `ℚ`
  represents exactly.
* A calendar date (`yyyy-mm-dd` string in the source) is a
  year / month / day triple; `dateIdx` is a strictly monotone encoding of
  the order `new Date(s).getTime()` induces on calendar dates.
* `Array.prototype.sort` is stable (ES2019) and all comparators used by the
  page are consistent (induced by a numeric key), so the sorted result is
  the unique stable sort; `List.insertionSort` with the corresponding
  non-strict relation computes exactly that.
* `localStorage` contents are seen through `JSON`: a `StoredValue` is
  either absent (`getItem` returned `null`), malformed (a string on which
  `JSON.parse` throws), or a parsed expense array.  `JSON.stringify` of a
  store always yields a parsable array, and the `as Expense[]` cast in the
  source performs no runtime checking.
-/

namespace ExpenseTracker

/-- A calendar date, as carried by an expense record's `date` field (a
`yyyy-mm-dd` string produced by the date input or `toLocalDateInput`);
`month` is 1-based. -/
structure EDate where
  year : Nat
  month : Nat
  day : Nat
deriving DecidableEq, Repr

/-- An expense record (`type Expense` in `page.tsx`).  The category is one
of the fixed `CATEGORIES` strings. -/
structure Expense where
  id : String
  label : String
  category : String
  amount : ℚ
  date : EDate
deriving DecidableEq, Repr

/-- The fixed category set (`CATEGORIES` in `page.tsx`). -/
def CATEGORIES : List String :=
  ["Housing", "Food", "Transport", "Utilities", "Health", "Leisure", "Other"]

/-- The `localStorage` key (`storageKey` in `page.tsx`). -/
def storageKey : String := "minimal-expense-tracker"

/-- A month key: the `` `${year}-${month}` `` string of `getMonthKey`,
modelled as the (year, 1-based month) pair it encodes (splitting such a
string on `"-"` and applying `Number` recovers exactly this pair). -/
abbrev MonthKey := Nat × Nat

/-- `getMonthKey(date)`: the year together with `getMonth() + 1` (so the
1-based month of the date). -/
def getMonthKey (d : EDate) : MonthKey := (d.year, d.month)

/-- The timeline position of a calendar date: an encoding that is strictly
monotone in the lexicographic (year, month, day) order on calendar dates
(month ≤ 12 < 16, day ≤ 31 < 32), modelling comparisons of
`new Date(e.date).getTime()`. -/
def dateIdx (d : EDate) : Nat := (d.year * 16 + d.month) * 32 + d.day

/-- The descending-by-date order used by the store's sort comparator
`(a, b) => new Date(b.date).getTime() - new Date(a.date).getTime()`:
`a` may precede `b` exactly when `b`'s date is not after `a`'s. -/
def byDateDesc (a b : Expense) : Prop := dateIdx b.date ≤ dateIdx a.date

instance : DecidableRel byDateDesc :=
  fun a b => inferInstanceAs (Decidable (dateIdx b.date ≤ dateIdx a.date))

instance : IsTotal Expense byDateDesc :=
  ⟨fun a b => Nat.le_total (dateIdx b.date) (dateIdx a.date)⟩

instance : IsTrans Expense byDateDesc :=
  ⟨fun _ _ _ h₁ h₂ => Nat.le_trans h₂ h₁⟩

/-- `s.trim()` (JS `String.prototype.trim`): strip leading and trailing
whitespace characters. -/
def jsTrim (s : String) : String :=
  ⟨(((s.data.dropWhile Char.isWhitespace).reverse).dropWhile
      Char.isWhitespace).reverse⟩

/-- `Number(amount.toFixed(2))`: round to two fractional digits; on a tie
`toFixed` picks the larger candidate, which `⌊q * 100 + 1/2⌋` does for
either sign. -/
def round2 (q : ℚ) : ℚ := (⌊q * 100 + 1 / 2⌋ : ℚ) / 100

/-- Component state touched by a form submission: the expense list and the
active month key (`expenses` and `activeMonthKey` in the component). -/
structure StoreState where
  expenses : List Expense
  activeMonthKey : MonthKey
deriving DecidableEq, Repr

/-- `handleSubmit`.  `amountNum` is the value of `Number(form.amount)`,
with `none` standing for `NaN` (what `Number` yields on a non-numeric
string); `freshId` is the id produced by `crypto.randomUUID()` (or the
timestamp fallback).  The guard
`!form.label.trim() || !amount || Number.isNaN(amount)` rejects exactly an
empty trimmed label, `NaN` and `0` (the two falsy numbers); every other
number — negative ones included — passes it.  On success the new record
(label trimmed, amount rounded to two digits) is prepended and the full
list re-sorted by date descending, and the active month key is set to the
new record's month.  The form-field reset performed by `handleSubmit` is
presentation state and is not modelled. -/
def handleSubmit (freshId : String) (label : String) (amountNum : Option ℚ)
    (category : String) (date : EDate) (st : StoreState) : StoreState :=
  match amountNum with
  | none => st
  | some a =>
    if jsTrim label = "" ∨ a = 0 then st
    else
      let newExpense : Expense :=
        { id := freshId, label := jsTrim label, category := category,
          amount := round2 a, date := date }
      { expenses := List.insertionSort byDateDesc (newExpense :: st.expenses),
        activeMonthKey := getMonthKey newExpense.date }

/-- `handleDelete(id)`: keep exactly the records whose id differs from
`id`. -/
def handleDelete (id : String) (prev : List Expense) : List Expense :=
  prev.filter (fun expense => expense.id ≠ id)

/-- `monthExpenses`: the records whose month key equals the active one. -/
def monthExpenses (expenses : List Expense) (activeMonthKey : MonthKey) :
    List Expense :=
  expenses.filter (fun expense => getMonthKey expense.date = activeMonthKey)

/-- `monthTotal`: the `reduce` summing the filtered records' amounts,
starting from 0. -/
def monthTotal (es : List Expense) : ℚ :=
  es.foldl (fun sum expense => sum + expense.amount) 0

/-- Gregorian leap-year rule, as implemented by the JS `Date` calendar. -/
def isLeapYear (y : Nat) : Bool :=
  (y % 4 == 0 && y % 100 != 0) || y % 400 == 0

/-- Number of days of 1-based month `m` (for `m` between 1 and 12) of year
`y` in the proleptic Gregorian calendar. -/
def monthLength (y m : Nat) : Nat :=
  if m = 2 then (if isLeapYear y then 29 else 28)
  else if m = 4 ∨ m = 6 ∨ m = 9 ∨ m = 11 then 30
  else 31

/-- `new Date(year, month, 0).getDate()` for a 1-based `month`: the number
of days in that month; JS `Date` normalizes an out-of-range month index
into the year (month index 12 of `y` is January of `y + 1`). -/
def daysInMonth (y m : Nat) : Nat :=
  monthLength (y + (m - 1) / 12) ((m - 1) % 12 + 1)

/-- `weeklyAverage`: the number of days of the active month (last minus
first day-of-month, plus one) divided by 7 gives the week count; the total
divided by the week count when that count is positive, the total unchanged
otherwise. -/
def weeklyAverage (activeMonthKey : MonthKey) (total : ℚ) : ℚ :=
  let totalDays : Nat := daysInMonth activeMonthKey.1 activeMonthKey.2 - 1 + 1
  let weeks : ℚ := (totalDays : ℚ) / 7
  if 0 < weeks then total / weeks else total

/-- One `acc[expense.category] = (acc[expense.category] ?? 0) + amount`
step on the tally object of `topCategories`, the object modelled as an
association list in key-insertion order (the property order `Object.entries`
reports for these non-index string keys). -/
def tallyAdd (acc : List (String × ℚ)) (cat : String) (amt : ℚ) :
    List (String × ℚ) :=
  match acc with
  | [] => [(cat, amt)]
  | (c, v) :: rest =>
    if c = cat then (c, v + amt) :: rest else (c, v) :: tallyAdd rest cat amt

/-- The `reduce` of `topCategories` building the per-category tally. -/
def tally (es : List Expense) : List (String × ℚ) :=
  es.foldl (fun acc expense => tallyAdd acc expense.category expense.amount) []

/-- The descending-by-sum order used by `topCategories`' comparator
`([, a], [, b]) => b - a`. -/
def bySumDesc (a b : String × ℚ) : Prop := b.2 ≤ a.2

instance : DecidableRel bySumDesc :=
  fun a b => inferInstanceAs (Decidable (b.2 ≤ a.2))

instance : IsTotal (String × ℚ) bySumDesc := ⟨fun a b => le_total b.2 a.2⟩

instance : IsTrans (String × ℚ) bySumDesc :=
  ⟨fun _ _ _ h₁ h₂ => le_trans h₂ h₁⟩

/-- `topCategories`: tally the month's records per category, sort the
entries by sum descending, keep the first three. -/
def topCategories (monthExpenses : List Expense) : List (String × ℚ) :=
  (List.insertionSort bySumDesc (tally monthExpenses)).take 3

/-- The timeline position of a month key, modelling comparisons of
`new Date(year, month - 1).getTime()` (JS `Date` places month index `i` of
year `y` at position `y * 12 + i` of the month timeline). -/
def monthIdx (k : MonthKey) : Int := (k.1 : Int) * 12 + (k.2 : Int) - 1

/-- The descending-by-recency order used by `months`' sort comparator. -/
def byMonthDesc (a b : MonthKey) : Prop := monthIdx b ≤ monthIdx a

instance : DecidableRel byMonthDesc :=
  fun a b => inferInstanceAs (Decidable (monthIdx b ≤ monthIdx a))

instance : IsTotal MonthKey byMonthDesc :=
  ⟨fun a b => Int.le_total (monthIdx b) (monthIdx a)⟩

instance : IsTrans MonthKey byMonthDesc :=
  ⟨fun _ _ _ h₁ h₂ => Int.le_trans h₂ h₁⟩

/-- One insertion into the `Set` of month keys (`unique.add`): a JS `Set`
keeps first-occurrence order and drops duplicates. -/
def setInsert (acc : List MonthKey) (k : MonthKey) : List MonthKey :=
  if k ∈ acc then acc else acc ++ [k]

/-- The `Set` of month keys of all records, in first-occurrence order
(`Array.from(unique)` in the source). -/
def uniqueMonthKeys (expenses : List Expense) : List MonthKey :=
  expenses.foldl (fun acc expense => setInsert acc (getMonthKey expense.date)) []

/-- The en-US long month name for a 1-based month number, as produced by
`monthFormatter` for an in-range month. -/
def monthName (m : Nat) : String :=
  ["January", "February", "March", "April", "May", "June", "July",
   "August", "September", "October", "November",
   "December"].getD (m - 1) ""

/-- `monthFormatter.format(new Date(year, month - 1))`: the
"Month Year" label of a month key. -/
def monthLabel (k : MonthKey) : String := monthName k.2 ++ " " ++ toString k.1

/-- `months`: the distinct month keys of the store, sorted most recent
first, each with its formatted label. -/
def months (expenses : List Expense) : List (MonthKey × String) :=
  (List.insertionSort byMonthDesc (uniqueMonthKeys expenses)).map
    (fun key => (key, monthLabel key))

/-- The value stored under `storageKey`, seen through `JSON`: `absent` when
`getItem` returns `null`, `malformed` when the stored string makes
`JSON.parse` throw, `value l` when it parses as an expense array. -/
inductive StoredValue where
  | absent : StoredValue
  | malformed : StoredValue
  | value : List Expense → StoredValue
deriving DecidableEq, Repr

/-- Result of the mount (load) effect: the component state it leaves behind
and the storage content once it has run. -/
structure LoadResult where
  expenses : List Expense
  activeMonthKey : MonthKey
  storage : StoredValue
deriving DecidableEq, Repr

/-- The load effect.  A present, parsable value becomes the store, and the
active month moves to the most recent record's month when one exists; a
present but unparsable value only logs the error, leaving state and
storage as they are; an absent value installs `seed`
(`createSeedExpenses()`) and writes it back immediately. -/
def loadEffect (stored : StoredValue) (seed : List Expense)
    (st : StoreState) : LoadResult :=
  match stored with
  | .value parsed =>
    { expenses := parsed,
      activeMonthKey :=
        match (List.insertionSort byDateDesc parsed).head? with
        | some latest => getMonthKey latest.date
        | none => st.activeMonthKey,
      storage := stored }
  | .malformed =>
    { expenses := st.expenses, activeMonthKey := st.activeMonthKey,
      storage := stored }
  | .absent =>
    { expenses := seed, activeMonthKey := st.activeMonthKey,
      storage := .value seed }

/-- The persist effect:
`localStorage.setItem(storageKey, JSON.stringify(expenses))`. -/
def persistEffect (expenses : List Expense) : StoredValue := .value expenses

/-- `createSeedExpenses()`: five fixed records on days 2, 3, 5, 7 and 10 of
the current month, given here by `year` and 1-based `month` (the source
passes `now.getMonth()`, a 0-based index, directly to the `Date`
constructor, which is the same month).  `mkId` models the id assignment
(`crypto.randomUUID()`, or the label-and-date fallback). -/
def createSeedExpenses (year month : Nat)
    (mkId : String → EDate → String) : List Expense :=
  [ { id := mkId "Morning coffee" ⟨year, month, 2⟩, label := "Morning coffee",
      category := "Food", amount := 4.5, date := ⟨year, month, 2⟩ },
    { id := mkId "Weekly groceries" ⟨year, month, 3⟩, label := "Weekly groceries",
      category := "Food", amount := 86.2, date := ⟨year, month, 3⟩ },
    { id := mkId "Metro pass" ⟨year, month, 5⟩, label := "Metro pass",
      category := "Transport", amount := 28, date := ⟨year, month, 5⟩ },
    { id := mkId "Electric bill" ⟨year, month, 7⟩, label := "Electric bill",
      category := "Utilities", amount := 64.75, date := ⟨year, month, 7⟩ },
    { id := mkId "Yoga class" ⟨year, month, 10⟩, label := "Yoga class",
      category := "Health", amount := 22, date := ⟨year, month, 10⟩ } ]

/-- Deleting an id that no record carries filters nothing out. -/
lemma handleDelete_not_mem (id : String) (l : List Expense)
    (h : id ∉ l.map Expense.id) : handleDelete id l = l := by
  induction l with
  | nil => rfl
  | cons a t ih =>
    simp only [List.map_cons, List.mem_cons, not_or] at h
    have h1 : a.id ≠ id := fun hh => h.1 hh.symm
    have h2 : handleDelete id t = t := ih h.2
    show (a :: t).filter (fun e => e.id ≠ id) = a :: t
    rw [List.filter_cons, if_pos (by simpa using h1)]
    exact congrArg (a :: ·) h2

/-- Deleting a present id, under unique ids, removes exactly that record. -/
lemma handleDelete_mem (id : String) :
    ∀ l : List Expense, (l.map Expense.id).Nodup → id ∈ l.map Expense.id →
      (handleDelete id l).length + 1 = l.length ∧
      ∃ e ∈ l, e.id = id ∧ handleDelete id l = l.erase e := by
  intro l
  induction l with
  | nil => intro _ h; simp at h
  | cons a t ih =>
    intro hn h
    simp only [List.map_cons, List.nodup_cons] at hn
    by_cases hai : a.id = id
    · have hid : id ∉ t.map Expense.id := hai ▸ hn.1
      have hhead : handleDelete id (a :: t) = t := by
        show (a :: t).filter (fun e => e.id ≠ id) = t
        rw [List.filter_cons, if_neg (by simp [hai])]
        exact handleDelete_not_mem id t hid
      refine ⟨by simp [hhead], a, List.mem_cons_self a t, hai, ?_⟩
      rw [hhead, List.erase_cons_head]
    · have hmem : id ∈ t.map Expense.id := by
        simp only [List.map_cons, List.mem_cons] at h
        rcases h with h' | h'
        · exact absurd h'.symm hai
        · exact h'
      obtain ⟨hlen, e, he, heid, heq⟩ := ih hn.2 hmem
      have hstep : handleDelete id (a :: t) = a :: handleDelete id t := by
        show (a :: t).filter (fun e => e.id ≠ id) = a :: t.filter (fun e => e.id ≠ id)
        rw [List.filter_cons, if_pos (by simpa using hai)]
      have hae : ¬ (a == e) = true := by
        simp only [beq_iff_eq]
        rintro rfl
        exact hai heid
      refine ⟨by simp [hstep, ← hlen], e, List.mem_cons_of_mem a he, heid, ?_⟩
      rw [hstep, heq, List.erase_cons_tail]
      exact hae
/-- Membership after one `Set` insertion. -/
lemma mem_setInsert (acc : List MonthKey) (k' k : MonthKey) :
    k ∈ setInsert acc k' ↔ k ∈ acc ∨ k = k' := by
  unfold setInsert
  split
  · rename_i hmem
    constructor
    · exact Or.inl
    · rintro (h | rfl)
      · exact h
      · exact hmem
  · simp

/-- `Set` insertion keeps the key list duplicate-free. -/
lemma nodup_setInsert (acc : List MonthKey) (k' : MonthKey) (h : acc.Nodup) :
    (setInsert acc k').Nodup := by
  unfold setInsert
  split
  · exact h
  · rename_i hmem
    simp [List.nodup_append, h, hmem]

/-- Membership in the month-key `Set` built over the records. -/
lemma mem_foldl_setInsert (es : List Expense) :
    ∀ (acc : List MonthKey) (k : MonthKey),
      k ∈ es.foldl (fun acc e => setInsert acc (getMonthKey e.date)) acc ↔
        k ∈ acc ∨ ∃ e ∈ es, getMonthKey e.date = k := by
  induction es with
  | nil => intro acc k; simp
  | cons a t ih =>
    intro acc k
    rw [List.foldl_cons, ih, mem_setInsert]
    constructor
    · rintro ((h | h) | ⟨e, he, hk⟩)
      · exact Or.inl h
      · exact Or.inr ⟨a, List.mem_cons_self a t, h.symm⟩
      · exact Or.inr ⟨e, List.mem_cons_of_mem a he, hk⟩
    · rintro (h | ⟨e, he, hk⟩)
      · exact Or.inl (Or.inl h)
      · rcases List.mem_cons.mp he with rfl | he'
        · exact Or.inl (Or.inr hk.symm)
        · exact Or.inr ⟨e, he', hk⟩

/-- A month key is collected iff some record has it. -/
lemma mem_uniqueMonthKeys (es : List Expense) (k : MonthKey) :
    k ∈ uniqueMonthKeys es ↔ ∃ e ∈ es, getMonthKey e.date = k := by
  have := mem_foldl_setInsert es [] k
  simpa [uniqueMonthKeys] using this

/-- The collected month keys are duplicate-free. -/
lemma nodup_foldl_setInsert (es : List Expense) :
    ∀ acc : List MonthKey, acc.Nodup →
      (es.foldl (fun acc e => setInsert acc (getMonthKey e.date)) acc).Nodup := by
  induction es with
  | nil => intro acc h; simpa using h
  | cons a t ih => intro acc h; exact ih _ (nodup_setInsert _ _ h)

lemma nodup_uniqueMonthKeys (es : List Expense) : (uniqueMonthKeys es).Nodup :=
  nodup_foldl_setInsert es [] List.nodup_nil

/-- Two sorted permutations of each other are equal, needing antisymmetry
only on the elements actually present. -/
lemma eq_of_perm_of_pairwise {α : Type u} {r : α → α → Prop} :
    ∀ {l₁ l₂ : List α}, l₁.Perm l₂ → l₁.Pairwise r → l₂.Pairwise r →
      (∀ a ∈ l₁, ∀ b ∈ l₁, r a b → r b a → a = b) → l₁ = l₂ := by
  intro l₁
  induction l₁ with
  | nil =>
    intro l₂ hp _ _ _
    exact (hp.symm.eq_nil).symm
  | cons a t ih =>
    intro l₂ hp h₁ h₂ anti
    cases l₂ with
    | nil => exact absurd hp.eq_nil (List.cons_ne_nil a t)
    | cons b t₂ =>
      have hab : a = b := by
        by_cases hab : a = b
        · exact hab
        · have ha₂ : a ∈ b :: t₂ := hp.mem_iff.mp (List.mem_cons_self a t)
          have hat₂ : a ∈ t₂ := by
            rcases List.mem_cons.mp ha₂ with h | h
            · exact absurd h hab
            · exact h
          have hba : r b a := (List.pairwise_cons.mp h₂).1 a hat₂
          have hb₁ : b ∈ a :: t := hp.symm.mem_iff.mp (List.mem_cons_self b t₂)
          have hbt : b ∈ t := by
            rcases List.mem_cons.mp hb₁ with h | h
            · exact absurd h.symm hab
            · exact h
          have hrab : r a b := (List.pairwise_cons.mp h₁).1 b hbt
          exact anti a (List.mem_cons_self a t) b hb₁ hrab hba
      subst hab
      have hp' : t.Perm t₂ := hp.cons_inv
      have htail := ih hp' (List.pairwise_cons.mp h₁).2 (List.pairwise_cons.mp h₂).2
        (fun x hx y hy => anti x (List.mem_cons_of_mem a hx) y (List.mem_cons_of_mem a hy))
      rw [htail]

/-- On in-range months the month-timeline position determines the key. -/
lemma monthIdx_inj {a b : MonthKey} (ha : 1 ≤ a.2 ∧ a.2 ≤ 12)
    (hb : 1 ≤ b.2 ∧ b.2 ≤ 12) (h : monthIdx a = monthIdx b) : a = b := by
  obtain ⟨a₁, a₂⟩ := a
  obtain ⟨b₁, b₂⟩ := b
  simp only [monthIdx] at h
  simp only at ha hb
  have heq : a₁ = b₁ ∧ a₂ = b₂ := by omega
  rw [heq.1, heq.2]
/-- Claim C1, as stated, is false at a negative amount: Create with label
"Coffee" and amount -5 passes the guard (`-5` is truthy and not `NaN`) and
changes the store. -/
theorem handleSubmit_negative_amount_cex :
    (handleSubmit "id-1" "Coffee" (some (-5)) "Food" ⟨2024, 1, 2⟩
        ⟨[], (2024, 1)⟩).expenses ≠ [] := by decide

/-- Claim C1 (amended): Create with an empty (or whitespace-only) trimmed
label, a non-numeric amount (`Number` gives `NaN`), or a zero amount is a
silent no-op: the state is returned unchanged and no error is surfaced.
(A negative amount, by contrast, passes the guard.) -/
theorem handleSubmit_invalid_noop (freshId label category : String)
    (amountNum : Option ℚ) (date : EDate) (st : StoreState)
    (h : jsTrim label = "" ∨ amountNum = none ∨ amountNum = some 0) :
    handleSubmit freshId label amountNum category date st = st := by
  cases amountNum with
  | none => rfl
  | some a =>
    have ha : jsTrim label = "" ∨ a = 0 := by
      rcases h with h | h | h
      · exact Or.inl h
      · exact absurd h (Option.some_ne_none a)
      · exact Or.inr (Option.some.inj h)
    simp only [handleSubmit, if_pos ha]

/-- Witness for C1's amended theorem at a concrete invalid input. -/
theorem handleSubmit_invalid_noop_witness :
    handleSubmit "id-1" "Lunch" none "Food" ⟨2024, 1, 2⟩ ⟨[], (2024, 1)⟩
      = ⟨[], (2024, 1)⟩ :=
  handleSubmit_invalid_noop "id-1" "Lunch" "Food" none ⟨2024, 1, 2⟩
    ⟨[], (2024, 1)⟩ (Or.inr (Or.inl rfl))
/-- Claim C2, as stated, is false for an unparsable persisted value: the
load effect then leaves the (empty) store and the storage as they are —
it neither installs the seed data nor persists it. -/
theorem loadEffect_malformed_cex :
    (loadEffect .malformed (createSeedExpenses 2024 1 (fun l _ => l))
        ⟨[], (2024, 1)⟩).expenses
      ≠ createSeedExpenses 2024 1 (fun l _ => l) ∧
    (loadEffect .malformed (createSeedExpenses 2024 1 (fun l _ => l))
        ⟨[], (2024, 1)⟩).storage
      ≠ .value (createSeedExpenses 2024 1 (fun l _ => l)) := by
  exact ⟨by decide, by decide⟩

/-- Claim C2 (amended): Load reads the persisted mirror; only when it is
absent does it fall back to the Seed Generator's output and persist that
seed immediately; an unparsable value is logged and leaves the store (and
the storage) unchanged, and a parsable value becomes the store as-is. -/
theorem loadEffect_cases (seed : List Expense) (st : StoreState) :
    loadEffect .absent seed st
      = { expenses := seed, activeMonthKey := st.activeMonthKey,
          storage := .value seed } ∧
    loadEffect .malformed seed st
      = { expenses := st.expenses, activeMonthKey := st.activeMonthKey,
          storage := .malformed } ∧
    ∀ parsed : List Expense,
      (loadEffect (.value parsed) seed st).expenses = parsed ∧
      (loadEffect (.value parsed) seed st).storage = .value parsed :=
  ⟨rfl, rfl, fun _ => ⟨rfl, rfl⟩⟩

/-- Claim C8: persisting the store and then loading yields the original
store back (even as a list, hence also as a set of records), provided no
other mutation happens in between. -/
theorem persist_load_roundtrip (store seed : List Expense) (st : StoreState) :
    (loadEffect (persistEffect store) seed st).expenses = store := rfl

/-- Claim C4: `topCategories` returns at most 3 entries, adjacent entries
are sorted by summed amount descending, and an empty input yields no
entries. -/
theorem topCategories_spec (es : List Expense) :
    (topCategories es).length ≤ 3 ∧
    (topCategories es).Pairwise (fun a b => b.2 ≤ a.2) ∧
    topCategories [] = [] := by
  refine ⟨?_, ?_, rfl⟩
  · calc (topCategories es).length
        = min 3 (List.insertionSort bySumDesc (tally es)).length := by
          simp [topCategories, List.length_take]
      _ ≤ 3 := min_le_left _ _
  · exact List.Pairwise.take (List.sorted_insertionSort bySumDesc (tally es))
/-- Claim C5: with unique ids, deleting an absent id is a no-op and
deleting a present id shrinks the store by exactly one, removing exactly
the record carrying that id. -/
theorem handleDelete_spec (id : String) (prev : List Expense)
    (hn : (prev.map Expense.id).Nodup) :
    (id ∉ prev.map Expense.id → handleDelete id prev = prev) ∧
    (id ∈ prev.map Expense.id →
      (handleDelete id prev).length + 1 = prev.length ∧
      ∃ e ∈ prev, e.id = id ∧ handleDelete id prev = prev.erase e) :=
  ⟨fun h => handleDelete_not_mem id prev h,
   fun h => handleDelete_mem id prev hn h⟩

/-- Witness for C5 at a concrete two-record store containing the id. -/
theorem handleDelete_spec_witness :
    (handleDelete "a"
        [{ id := "a", label := "Rent", category := "Housing", amount := 900,
           date := ⟨2024, 1, 1⟩ },
         { id := "b", label := "Tea", category := "Food", amount := 3,
           date := ⟨2024, 1, 2⟩ }]).length + 1 = 2 ∧
    ∃ e ∈ [{ id := "a", label := "Rent", category := "Housing", amount := 900,
             date := ⟨2024, 1, 1⟩ },
           { id := "b", label := "Tea", category := "Food", amount := 3,
             date := ⟨2024, 1, 2⟩ }],
      e.id = "a" ∧
      handleDelete "a"
          [{ id := "a", label := "Rent", category := "Housing", amount := 900,
             date := ⟨2024, 1, 1⟩ },
           { id := "b", label := "Tea", category := "Food", amount := 3,
             date := ⟨2024, 1, 2⟩ }]
        = ([{ id := "a", label := "Rent", category := "Housing", amount := 900,
              date := ⟨2024, 1, 1⟩ },
            { id := "b", label := "Tea", category := "Food", amount := 3,
              date := ⟨2024, 1, 2⟩ }]).erase e :=
  (handleDelete_spec "a"
      [{ id := "a", label := "Rent", category := "Housing", amount := 900,
         date := ⟨2024, 1, 1⟩ },
       { id := "b", label := "Tea", category := "Food", amount := 3,
         date := ⟨2024, 1, 2⟩ }] (by decide)).2 (by decide)
/-- Claim C3: a valid Create (non-empty trimmed label, positive non-NaN
amount) grows the store by exactly one record, and the inserted record's
amount is the input rounded to two fractional digits. -/
theorem handleSubmit_valid_inserts (freshId label category : String)
    (a : ℚ) (date : EDate) (st : StoreState)
    (hl : jsTrim label ≠ "") (ha : 0 < a) :
    (handleSubmit freshId label (some a) category date st).expenses.length
        = st.expenses.length + 1 ∧
    ∃ e : Expense,
      (handleSubmit freshId label (some a) category date st).expenses.Perm
        (e :: st.expenses) ∧ e.id = freshId ∧ e.amount = round2 a := by
  have h : ¬ (jsTrim label = "" ∨ a = 0) := by
    rintro (h | h)
    exacts [hl h, ha.ne' h]
  have hexp : (handleSubmit freshId label (some a) category date st).expenses
      = List.insertionSort byDateDesc
          ((⟨freshId, jsTrim label, category, round2 a, date⟩ : Expense)
            :: st.expenses) := by
    simp only [handleSubmit, if_neg h]
  constructor
  · rw [hexp, List.length_insertionSort, List.length_cons]
  · refine ⟨⟨freshId, jsTrim label, category, round2 a, date⟩, ?_, rfl, rfl⟩
    rw [hexp]
    exact List.perm_insertionSort byDateDesc _

/-- Witness for C3 at a concrete valid input over an empty store. -/
theorem handleSubmit_valid_inserts_witness :
    (handleSubmit "id-1" "Coffee" (some (7 / 2)) "Food" ⟨2024, 1, 2⟩
        ⟨[], (2024, 1)⟩).expenses.length = ([] : List Expense).length + 1 ∧
    ∃ e : Expense,
      (handleSubmit "id-1" "Coffee" (some (7 / 2)) "Food" ⟨2024, 1, 2⟩
          ⟨[], (2024, 1)⟩).expenses.Perm (e :: ([] : List Expense)) ∧
      e.id = "id-1" ∧ e.amount = round2 (7 / 2) :=
  handleSubmit_valid_inserts "id-1" "Coffee" "Food" (7 / 2) ⟨2024, 1, 2⟩
    ⟨[], (2024, 1)⟩ (by decide) (by norm_num)

/-- Claim C9: after a successful Create the whole store is sorted by date
descending: each record's date is not older than the next one's. -/
theorem handleSubmit_sorted_by_date (freshId label category : String)
    (a : ℚ) (date : EDate) (st : StoreState)
    (hl : jsTrim label ≠ "") (ha : a ≠ 0) :
    (handleSubmit freshId label (some a) category date st).expenses.Pairwise
      (fun x y => dateIdx y.date ≤ dateIdx x.date) := by
  have h : ¬ (jsTrim label = "" ∨ a = 0) := by
    rintro (h | h)
    exacts [hl h, ha h]
  simp only [handleSubmit, if_neg h]
  exact List.sorted_insertionSort byDateDesc _

/-- Witness for C9 at a concrete valid input over an unsorted store. -/
theorem handleSubmit_sorted_by_date_witness :
    (handleSubmit "id-9" "Gym" (some 30) "Health" ⟨2024, 3, 4⟩
        ⟨[⟨"x", "Old", "Other", 1, ⟨2023, 2, 1⟩⟩,
          ⟨"y", "New", "Other", 2, ⟨2024, 5, 6⟩⟩], (2024, 3)⟩).expenses.Pairwise
      (fun x y => dateIdx y.date ≤ dateIdx x.date) :=
  handleSubmit_sorted_by_date "id-9" "Gym" "Health" 30 ⟨2024, 3, 4⟩
    ⟨[⟨"x", "Old", "Other", 1, ⟨2023, 2, 1⟩⟩,
      ⟨"y", "New", "Other", 2, ⟨2024, 5, 6⟩⟩], (2024, 3)⟩
    (by decide) (by norm_num)

/-- Claim C10: a successful Create switches the active month key to the
month of the new record's date, whatever month was selected before — the
dropdown is not the only way the active month changes. -/
theorem handleSubmit_sets_activeMonth (freshId label category : String)
    (a : ℚ) (date : EDate) (st : StoreState)
    (hl : jsTrim label ≠ "") (ha : a ≠ 0) :
    (handleSubmit freshId label (some a) category date st).activeMonthKey
      = getMonthKey date := by
  have h : ¬ (jsTrim label = "" ∨ a = 0) := by
    rintro (h | h)
    exacts [hl h, ha h]
  simp only [handleSubmit, if_neg h]

/-- Witness for C10 with a previously selected month different from the
new record's month. -/
theorem handleSubmit_sets_activeMonth_witness :
    (handleSubmit "id-2" "Coffee" (some 6) "Food" ⟨2024, 2, 3⟩
        ⟨[], (2019, 11)⟩).activeMonthKey = getMonthKey ⟨2024, 2, 3⟩ :=
  handleSubmit_sets_activeMonth "id-2" "Coffee" "Food" 6 ⟨2024, 2, 3⟩
    ⟨[], (2019, 11)⟩ (by decide) (by norm_num)

/-- Claim C6: the weekly average is the month total divided by the month's
week count (days of the month divided by 7) when that count is positive,
and the total unchanged otherwise; a 28-day month with total 140 gives 35. -/
theorem weeklyAverage_spec (k : MonthKey) (total : ℚ) :
    (0 < ((daysInMonth k.1 k.2 - 1 + 1 : Nat) : ℚ) / 7 →
      weeklyAverage k total
        = total / (((daysInMonth k.1 k.2 - 1 + 1 : Nat) : ℚ) / 7)) ∧
    (¬ 0 < ((daysInMonth k.1 k.2 - 1 + 1 : Nat) : ℚ) / 7 →
      weeklyAverage k total = total) ∧
    weeklyAverage (2023, 2) 140 = 35 := by
  refine ⟨fun h => ?_, fun h => ?_, ?_⟩
  · simp only [weeklyAverage]
    rw [if_pos h]
  · simp only [weeklyAverage]
    rw [if_neg h]
  · norm_num [weeklyAverage, daysInMonth, monthLength, isLeapYear]

/-- Witness for C6: February 2023 has 28 days, so the week count is
positive and the average is the total divided by 28/7. -/
theorem weeklyAverage_spec_witness :
    weeklyAverage (2023, 2) 140
      = 140 / (((daysInMonth (2023, 2).1 (2023, 2).2 - 1 + 1 : Nat) : ℚ) / 7) :=
  (weeklyAverage_spec (2023, 2) 140).1
    (by norm_num [daysInMonth, monthLength, isLeapYear])
/-- Claim C7: `months` lists exactly the distinct (year, month) pairs of
the records' dates, without duplicates, most recent first, each with its
formatted label; for valid calendar dates the result depends only on the
set of records (permuting the store does not change it). -/
theorem months_spec (es₁ es₂ : List Expense)
    (hv : ∀ e ∈ es₁, 1 ≤ e.date.month ∧ e.date.month ≤ 12)
    (hp : es₁.Perm es₂) :
    ((months es₁).map Prod.fst).Nodup ∧
    (∀ k : MonthKey,
      k ∈ (months es₁).map Prod.fst ↔ ∃ e ∈ es₁, getMonthKey e.date = k) ∧
    (months es₁).Pairwise (fun p q => monthIdx q.1 ≤ monthIdx p.1) ∧
    (∀ p ∈ months es₁, p.2 = monthLabel p.1) ∧
    months es₁ = months es₂ := by
  have hkeys : ∀ es : List Expense,
      (months es).map Prod.fst
        = List.insertionSort byMonthDesc (uniqueMonthKeys es) := by
    intro es
    simp only [months, List.map_map]
    show List.map (fun k => k) _ = _
    exact List.map_id' _
  refine ⟨?_, ?_, ?_, ?_, ?_⟩
  · rw [hkeys]
    exact ((List.perm_insertionSort byMonthDesc _).nodup_iff).mpr
      (nodup_uniqueMonthKeys es₁)
  · intro k
    rw [hkeys, (List.perm_insertionSort byMonthDesc _).mem_iff,
      mem_uniqueMonthKeys]
  · simp only [months, List.pairwise_map]
    exact List.sorted_insertionSort byMonthDesc _
  · intro p hmem
    simp only [months, List.mem_map] at hmem
    obtain ⟨k, _, rfl⟩ := hmem
    rfl
  · have hpm : (uniqueMonthKeys es₁).Perm (uniqueMonthKeys es₂) := by
      refine (List.perm_ext_iff_of_nodup (nodup_uniqueMonthKeys es₁)
        (nodup_uniqueMonthKeys es₂)).mpr ?_
      intro k
      rw [mem_uniqueMonthKeys, mem_uniqueMonthKeys]
      constructor
      · rintro ⟨e, he, hk⟩
        exact ⟨e, hp.mem_iff.mp he, hk⟩
      · rintro ⟨e, he, hk⟩
        exact ⟨e, hp.mem_iff.mpr he, hk⟩
    have hvalid : ∀ k ∈ uniqueMonthKeys es₁, 1 ≤ k.2 ∧ k.2 ≤ 12 := by
      intro k hk
      obtain ⟨e, he, rfl⟩ := (mem_uniqueMonthKeys es₁ k).mp hk
      exact hv e he
    have hsp : (List.insertionSort byMonthDesc (uniqueMonthKeys es₁)).Perm
        (List.insertionSort byMonthDesc (uniqueMonthKeys es₂)) :=
      ((List.perm_insertionSort byMonthDesc _).trans hpm).trans
        (List.perm_insertionSort byMonthDesc _).symm
    have hanti : ∀ x ∈ List.insertionSort byMonthDesc (uniqueMonthKeys es₁),
        ∀ y ∈ List.insertionSort byMonthDesc (uniqueMonthKeys es₁),
        byMonthDesc x y → byMonthDesc y x → x = y := by
      intro x hx y hy h₁' h₂'
      have hx' := (List.perm_insertionSort byMonthDesc _).mem_iff.mp hx
      have hy' := (List.perm_insertionSort byMonthDesc _).mem_iff.mp hy
      exact monthIdx_inj (hvalid x hx') (hvalid y hy') (le_antisymm h₂' h₁')
    have hseq : List.insertionSort byMonthDesc (uniqueMonthKeys es₁)
        = List.insertionSort byMonthDesc (uniqueMonthKeys es₂) :=
      eq_of_perm_of_pairwise hsp
        (List.sorted_insertionSort byMonthDesc _)
        (List.sorted_insertionSort byMonthDesc _) hanti
    simp only [months]
    rw [hseq]

/-- Witness for C7: a two-record store and its swap produce the same
month listing. -/
theorem months_spec_witness :
    months [⟨"a", "Rent", "Housing", 900, ⟨2024, 1, 5⟩⟩,
            ⟨"b", "Tea", "Food", 3, ⟨2023, 12, 8⟩⟩]
      = months [⟨"b", "Tea", "Food", 3, ⟨2023, 12, 8⟩⟩,
                ⟨"a", "Rent", "Housing", 900, ⟨2024, 1, 5⟩⟩] :=
  (months_spec
    ([⟨"a", "Rent", "Housing", 900, ⟨2024, 1, 5⟩⟩,
      ⟨"b", "Tea", "Food", 3, ⟨2023, 12, 8⟩⟩] : List Expense)
    ([⟨"b", "Tea", "Food", 3, ⟨2023, 12, 8⟩⟩,
      ⟨"a", "Rent", "Housing", 900, ⟨2024, 1, 5⟩⟩] : List Expense)
    (by decide)
    (List.Perm.swap (⟨"b", "Tea", "Food", 3, ⟨2023, 12, 8⟩⟩ : Expense)
      (⟨"a", "Rent", "Housing", 900, ⟨2024, 1, 5⟩⟩ : Expense) [])).2.2.2.2
end ExpenseTracker
